import Mathlib

/-!
Verification of the connection-string codec of the simplegres repository
(package simplehstore, file helpers.go, constants from the main db file).

Go strings are modelled as lists of characters.  Every helper of the source
file is translated one statement at a time: twoFields, leftOf, rightOf,
splitConnectionString, buildConnectionString and rebuildConnectionString,
together with the constants defaultDatabaseName and defaultPort.  The
process-wide Verbose flag only controls logging and has no effect on any
return value, so it is omitted.
-/

namespace Simplehstore

/-- A Go string, modelled as its list of characters. -/
abbrev GoStr := List Char

/-- Characters of a Lean string literal, used to write Go string literals. -/
def str (s : String) : GoStr := s.data

/-- The whitespace test used by Go strings.TrimSpace: unicode.IsSpace,
which holds exactly for the White_Space code points U+0009-U+000D, U+0020,
U+0085, U+00A0, U+1680, U+2000-U+200A, U+2028, U+2029, U+202F, U+205F and
U+3000. -/
def goIsSpace (c : Char) : Bool :=
  c == ' ' || c == '\t' || c == '\n' || c == '\x0b' || c == '\x0c' || c == '\r' ||
  c == '\x85' || c == '\xa0' || c == '\u1680' ||
  ('\u2000' ≤ c && c ≤ '\u200a') || c == '\u2028' || c == '\u2029' ||
  c == '\u202f' || c == '\u205f' || c == '\u3000'

/-- Go strings.Split with a one-character separator: the list of fields
between occurrences of the separator.  Always returns at least one field. -/
def goSplit (s : GoStr) (c : Char) : List GoStr :=
  match s with
  | [] => [[]]
  | a :: rest =>
    if a = c then [] :: goSplit rest c
    else
      match goSplit rest c with
      | [] => [[a]]
      | f :: fs => (a :: f) :: fs

/-- Go strings.TrimSpace: remove leading and trailing whitespace. -/
def trimSpace (s : GoStr) : GoStr :=
  ((s.dropWhile goIsSpace).reverse.dropWhile goIsSpace).reverse

/-- Go strings.TrimRight with a one-character cutset: remove trailing
copies of that character. -/
def trimRightC (s : GoStr) (c : Char) : GoStr :=
  (s.reverse.dropWhile (· == c)).reverse

/-- helpers.go twoFields: splits a string into two parts at a delimiter
that must occur exactly once; otherwise reports failure. -/
def twoFields (s : GoStr) (c : Char) : GoStr × GoStr × Bool :=
  if s.count c ≠ 1 then (s, [], false)
  else ((goSplit s c).getD 0 [], (goSplit s c).getD 1 [], true)

/-- helpers.go leftOf: the trimmed part to the left of the delimiter, or
the empty string when the delimiter does not occur exactly once. -/
def leftOf (s : GoStr) (c : Char) : GoStr :=
  let r := twoFields s c
  if r.2.2 then trimSpace r.1 else []

/-- helpers.go rightOf: the trimmed part to the right of the delimiter, or
the empty string when the delimiter does not occur exactly once. -/
def rightOf (s : GoStr) (c : Char) : GoStr :=
  let r := twoFields s c
  if r.2.2 then trimSpace r.2.1 else []

/-- Go strconv.Itoa on a natural number. -/
def itoa (n : Nat) : GoStr := (toString n).data

/-- Constant defaultDatabaseName from the main source file. -/
def defaultDatabaseName : GoStr := str "test"

/-- Constant defaultPort from the main source file. -/
def defaultPort : Nat := 3306

/-- The decoded form of a connection string: the seven named results of
splitConnectionString. -/
structure ParsedConnection where
  username : GoStr
  password : GoStr
  hasPassword : Bool
  host : GoStr
  port : GoStr
  dbname : GoStr
  args : GoStr
deriving DecidableEq

/-- helpers.go splitConnectionString: parse a DSN, translated statement by
statement.  The reassigned Go variables (hostPort, dbname, port) become one
let-binding per value; a branch that assigns two variables under one test
becomes two conditionals with the same test. -/
def splitConnectionString (connectionString : GoStr) : ParsedConnection :=
  let userPass := leftOf connectionString '@'
  let hostPortDatabase :=
    if userPass ≠ [] then rightOf connectionString '@'
    else trimRightC connectionString '@'
  let dbname0 := rightOf hostPortDatabase '/'
  let hostPort0 :=
    if dbname0 ≠ [] then leftOf hostPortDatabase '/'
    else trimRightC connectionString '/'
  let dbname1 := if dbname0 ≠ [] then dbname0 else defaultDatabaseName
  let hostPort :=
    if '@' ∈ hostPort0 then rightOf hostPort0 '@' else hostPort0
  let password := trimSpace (rightOf userPass ':')
  let username :=
    if password ≠ [] then leftOf userPass ':'
    else trimRightC userPass ':'
  let hasPassword : Bool := decide (password ≠ [])
  let port0 := rightOf hostPort ':'
  let host :=
    if port0 ≠ [] then leftOf hostPort ':'
    else trimRightC hostPort ':'
  let port :=
    if port0 ≠ [] then port0
    else if host ≠ [] then itoa defaultPort else port0
  let args :=
    if '?' ∈ dbname1 ∧ '=' ∈ dbname1 then rightOf dbname1 '?' else []
  let dbname :=
    if '?' ∈ dbname1 ∧ '=' ∈ dbname1 then
      if args ≠ [] then leftOf dbname1 '?' else dbname1
    else dbname1
  ⟨username, password, hasPassword, host, port, dbname, args⟩

/-- helpers.go buildConnectionString: build a DSN from the seven fields,
translated statement by statement (the bytes.Buffer writes become list
appends). -/
def buildConnectionString (username password : GoStr) (hasPassword : Bool)
    (host port dbname args : GoStr) : GoStr :=
  let buf0 : GoStr :=
    if (str "postgres://").isPrefixOf username then [] else str "postgres://"
  let buf1 :=
    if username ≠ [] ∧ hasPassword = true then
      buf0 ++ username ++ str ":" ++ password ++ str "@"
    else if username ≠ [] then buf0 ++ username ++ str "@"
    else if hasPassword = true then buf0 ++ str ":" ++ password ++ str "@"
    else buf0
  let buf2 := if host ≠ [] then buf1 ++ host else buf1
  let buf3 := if port ≠ [] then buf2 ++ str ":" ++ port else buf2
  let buf4 := buf3 ++ str "/" ++ dbname
  if args ≠ [] then buf4 ++ str "?" ++ args else buf4 ++ str "?sslmode=disable"

/-- buildConnectionString applied to the fields of a ParsedConnection. -/
def buildPC (p : ParsedConnection) : GoStr :=
  buildConnectionString p.username p.password p.hasPassword p.host p.port p.dbname p.args

/-- helpers.go rebuildConnectionString: take the connection string apart
and rebuild it, also returning the parsed database name. -/
def rebuildConnectionString (connectionString : GoStr) : GoStr × GoStr :=
  let p := splitConnectionString connectionString
  (buildPC p, p.dbname)

/-!
Checked variants.  The one operation of the source that could fail at run
time is the access to fields[0] and fields[1] inside twoFields after the
strings.Split call.  The checked variants perform those accesses with an
explicit bounds check and propagate a potential failure as Option.none; the
totality claim is that the checked parser always succeeds and agrees with
the straight-line one.
-/

/-- twoFields with the two list accesses guarded by bounds checks. -/
def twoFieldsChecked (s : GoStr) (c : Char) : Option (GoStr × GoStr × Bool) :=
  if s.count c ≠ 1 then some (s, [], false)
  else
    match (goSplit s c)[0]?, (goSplit s c)[1]? with
    | some f0, some f1 => some (f0, f1, true)
    | _, _ => none

/-- leftOf on top of the checked twoFields. -/
def leftOfChecked (s : GoStr) (c : Char) : Option GoStr :=
  (twoFieldsChecked s c).map fun r => if r.2.2 then trimSpace r.1 else []

/-- rightOf on top of the checked twoFields. -/
def rightOfChecked (s : GoStr) (c : Char) : Option GoStr :=
  (twoFieldsChecked s c).map fun r => if r.2.2 then trimSpace r.2.1 else []

/-- splitConnectionString with every delimiter split performed by the
checked helpers, failure propagating as none. -/
def splitConnectionStringChecked (connectionString : GoStr) : Option ParsedConnection := do
  let userPass ← leftOfChecked connectionString '@'
  let hostPortDatabase ←
    (if userPass ≠ [] then rightOfChecked connectionString '@'
     else pure (trimRightC connectionString '@'))
  let dbname0 ← rightOfChecked hostPortDatabase '/'
  let hostPort0 ←
    (if dbname0 ≠ [] then leftOfChecked hostPortDatabase '/'
     else pure (trimRightC connectionString '/'))
  let dbname1 := if dbname0 ≠ [] then dbname0 else defaultDatabaseName
  let hostPort ←
    (if '@' ∈ hostPort0 then rightOfChecked hostPort0 '@' else pure hostPort0)
  let pw ← rightOfChecked userPass ':'
  let password := trimSpace pw
  let username ←
    (if password ≠ [] then leftOfChecked userPass ':'
     else pure (trimRightC userPass ':'))
  let port0 ← rightOfChecked hostPort ':'
  let host ←
    (if port0 ≠ [] then leftOfChecked hostPort ':'
     else pure (trimRightC hostPort ':'))
  let port :=
    if port0 ≠ [] then port0
    else if host ≠ [] then itoa defaultPort else port0
  let args ←
    (if '?' ∈ dbname1 ∧ '=' ∈ dbname1 then rightOfChecked dbname1 '?'
     else pure [])
  let dbname ←
    (if '?' ∈ dbname1 ∧ '=' ∈ dbname1 then
       (if args ≠ [] then leftOfChecked dbname1 '?' else pure dbname1)
     else pure dbname1)
  pure ⟨username, password, decide (password ≠ []), host, port, dbname, args⟩

/-!
Output-grammar segments.  These two definitions follow the words of the
specification for the encoded form (section 6 output format and the
credential forms of section 4), for comparison with buildConnectionString;
the side condition of the credentials block is the amended one, keyed on
the hasPassword flag rather than on a non-empty password.
-/

/-- Modelled from the spec: the scheme token of the output grammar, emitted
unless the username already carries it. -/
def schemeSegment (username : GoStr) : GoStr :=
  if (str "postgres://").isPrefixOf username then [] else str "postgres://"

/-- Modelled from the spec: the credentials block of the output grammar in
its four forms user:pass@, user@, :pass@ and nothing. -/
def credentialsBlock (username password : GoStr) (hasPassword : Bool) : GoStr :=
  if username ≠ [] ∧ hasPassword = true then username ++ ':' :: password ++ ['@']
  else if username ≠ [] then username ++ ['@']
  else if hasPassword = true then ':' :: password ++ ['@']
  else []

/-- Components that may appear between the delimiters of a well-formed
input, the delimiters themselves and whitespace excluded. -/
def delimClean (s : GoStr) : Prop :=
  '@' ∉ s ∧ ':' ∉ s ∧ '/' ∉ s ∧ '?' ∉ s ∧ ∀ c ∈ s, goIsSpace c = false

instance (s : GoStr) : Decidable (delimClean s) := by
  unfold delimClean; infer_instance

/-- A non-empty delimiter-free, whitespace-free component of a well-formed
input of the shape user:pass@host:port/db?args. -/
def cleanComponent (s : GoStr) : Prop := s ≠ [] ∧ delimClean s

instance (s : GoStr) : Decidable (cleanComponent s) := by
  unfold cleanComponent; infer_instance

/-! Helper lemmas about the modelled Go string operations. -/

theorem goSplit_ne_nil (s : GoStr) (c : Char) : goSplit s c ≠ [] := by
  induction s with
  | nil => simp [goSplit]
  | cons a rest ih =>
    rw [goSplit]
    split
    · simp
    · cases hg : goSplit rest c <;> simp

theorem goSplit_of_not_mem (s : GoStr) (c : Char) (h : c ∉ s) : goSplit s c = [s] := by
  induction s with
  | nil => rfl
  | cons a rest ih =>
    have ha : a ≠ c := fun e => h (e ▸ List.mem_cons_self a rest)
    have hr : c ∉ rest := fun m => h (List.mem_cons_of_mem a m)
    rw [goSplit, if_neg ha, ih hr]

theorem goSplit_sandwich (x y : GoStr) (c : Char) (hx : c ∉ x) :
    goSplit (x ++ c :: y) c = x :: goSplit y c := by
  induction x with
  | nil => simp [goSplit]
  | cons a rest ih =>
    have ha : a ≠ c := fun e => hx (e ▸ List.mem_cons_self a rest)
    have hr : c ∉ rest := fun m => hx (List.mem_cons_of_mem a m)
    rw [List.cons_append, goSplit, if_neg ha, ih hr]

theorem goSplit_length (s : GoStr) (c : Char) : (goSplit s c).length = s.count c + 1 := by
  induction s with
  | nil => simp [goSplit]
  | cons a rest ih =>
    rw [goSplit]
    split
    · rename_i ha
      subst ha
      simp [ih, List.count_cons_self]
    · rename_i ha
      cases hg : goSplit rest c with
      | nil => exact absurd hg (goSplit_ne_nil rest c)
      | cons f fs =>
        rw [hg] at ih
        simp only [List.length_cons] at ih ⊢
        rw [List.count_cons_of_ne (fun e => ha e.symm)]
        omega

theorem count_sandwich (x y : GoStr) (c : Char) (hx : c ∉ x) (hy : c ∉ y) :
    (x ++ c :: y).count c = 1 := by
  simp [List.count_append, List.count_cons_self,
    List.count_eq_zero.mpr hx, List.count_eq_zero.mpr hy]

theorem twoFields_of_count_ne_one (s : GoStr) (c : Char) (h : s.count c ≠ 1) :
    twoFields s c = (s, [], false) := by
  rw [twoFields, if_pos h]

theorem twoFields_sandwich (x y : GoStr) (c : Char) (hx : c ∉ x) (hy : c ∉ y) :
    twoFields (x ++ c :: y) c = (x, y, true) := by
  have hc := count_sandwich x y c hx hy
  rw [twoFields, if_neg (by simp [hc]), goSplit_sandwich x y c hx,
    goSplit_of_not_mem y c hy]
  rfl

theorem leftOf_of_count_ne_one (s : GoStr) (c : Char) (h : s.count c ≠ 1) :
    leftOf s c = [] := by
  rw [leftOf, twoFields_of_count_ne_one s c h]
  rfl

theorem rightOf_of_count_ne_one (s : GoStr) (c : Char) (h : s.count c ≠ 1) :
    rightOf s c = [] := by
  rw [rightOf, twoFields_of_count_ne_one s c h]
  rfl

theorem leftOf_sandwich (x y : GoStr) (c : Char) (hx : c ∉ x) (hy : c ∉ y) :
    leftOf (x ++ c :: y) c = trimSpace x := by
  rw [leftOf, twoFields_sandwich x y c hx hy]
  rfl

theorem rightOf_sandwich (x y : GoStr) (c : Char) (hx : c ∉ x) (hy : c ∉ y) :
    rightOf (x ++ c :: y) c = trimSpace y := by
  rw [rightOf, twoFields_sandwich x y c hx hy]
  rfl

theorem dropWhile_cons_false (p : Char → Bool) (a : Char) (l : GoStr)
    (h : p a = false) : (a :: l).dropWhile p = a :: l := by
  simp [List.dropWhile, h]

theorem dropWhile_eq_self_of_all (p : Char → Bool) (l : GoStr)
    (h : ∀ a ∈ l, p a = false) : l.dropWhile p = l := by
  cases l with
  | nil => rfl
  | cons a rest =>
    exact List.dropWhile_cons_of_neg (by simp [h a (List.mem_cons_self a rest)])

theorem trimSpace_eq_self (s : GoStr) (h : ∀ a ∈ s, goIsSpace a = false) :
    trimSpace s = s := by
  unfold trimSpace
  rw [dropWhile_eq_self_of_all goIsSpace s h,
    dropWhile_eq_self_of_all goIsSpace s.reverse
      (fun a ha => h a (List.mem_reverse.mp ha)),
    List.reverse_reverse]

theorem trimRightC_append (x y : GoStr) (c : Char) (hy : c ∉ y) (hne : y ≠ []) :
    trimRightC (x ++ y) c = x ++ y := by
  unfold trimRightC
  rw [List.reverse_append]
  cases hrev : y.reverse with
  | nil => exact absurd (by simpa using congrArg List.reverse hrev) hne
  | cons b bs =>
    have hb : b ∈ y := by
      rw [← List.mem_reverse, hrev]
      exact List.mem_cons_self b bs
    have hbc : (b == c) = false := by
      simp only [beq_eq_false_iff_ne, ne_eq]
      exact fun e => hy (e ▸ hb)
    rw [List.cons_append, dropWhile_cons_false (· == c) b (bs ++ x.reverse) hbc,
      ← List.cons_append, ← hrev, ← List.reverse_append, List.reverse_reverse]

theorem trimRightC_of_not_mem (s : GoStr) (c : Char) (h : c ∉ s) :
    trimRightC s c = s := by
  cases s with
  | nil => rfl
  | cons a l => exact trimRightC_append [] (a :: l) c h (by simp)

theorem isPrefixOf_append_self (pre s : GoStr) : pre.isPrefixOf (pre ++ s) = true := by
  induction pre with
  | nil => simp [List.isPrefixOf]
  | cons a l ih => simpa [List.isPrefixOf] using ih

theorem mem_of_isPrefixOf (pre s : GoStr) (c : Char)
    (h : pre.isPrefixOf s = true) (hc : c ∈ pre) : c ∈ s := by
  induction pre generalizing s with
  | nil => cases hc
  | cons a l ih =>
    cases s with
    | nil => simp [List.isPrefixOf] at h
    | cons b bs =>
      simp only [List.isPrefixOf, Bool.and_eq_true, beq_iff_eq] at h
      rcases List.mem_cons.mp hc with rfl | hm
      · rw [h.1]
        exact List.mem_cons_self b bs
      · exact List.mem_cons_of_mem b (ih bs h.2 hm)

theorem forall_mem_append' (P : Char → Prop) (x y : GoStr)
    (hx : ∀ c ∈ x, P c) (hy : ∀ c ∈ y, P c) : ∀ c ∈ x ++ y, P c :=
  fun c m => (List.mem_append.mp m).elim (hx c) (hy c)

theorem forall_mem_cons' (P : Char → Prop) (a : Char) (y : GoStr)
    (ha : P a) (hy : ∀ c ∈ y, P c) : ∀ c ∈ a :: y, P c :=
  fun c m => (List.mem_cons.mp m).elim (fun e => e ▸ ha) (hy c)

theorem forall_ne_of_not_mem (x : GoStr) (b : Char) (h : b ∉ x) :
    ∀ c ∈ x, c ≠ b := fun c m e => h (e ▸ m)

theorem not_mem_of_forall_ne (x : GoStr) (b : Char) (h : ∀ c ∈ x, c ≠ b) :
    b ∉ x := fun m => h b m rfl

theorem str_colon : str ":" = [':'] := rfl

theorem str_at : str "@" = ['@'] := rfl

theorem str_slash : str "/" = ['/'] := rfl

theorem str_qmark : str "?" = ['?'] := rfl

theorem trimSpace_nil : trimSpace [] = [] := rfl

theorem at_ne_colon : ('@' : Char) ≠ ':' := by decide

theorem at_ne_slash : ('@' : Char) ≠ '/' := by decide

theorem at_ne_qmark : ('@' : Char) ≠ '?' := by decide

theorem slash_ne_colon : ('/' : Char) ≠ ':' := by decide

theorem slash_ne_qmark : ('/' : Char) ≠ '?' := by decide

theorem colon_space_false : goIsSpace ':' = false := by decide

theorem slash_space_false : goIsSpace '/' = false := by decide

theorem qmark_space_false : goIsSpace '?' = false := by decide

/-- Computation of splitConnectionString on a string of the shape
cred@host:port/db?args whose components to the right of the at sign are
delimiter-free; the credentials part cred is kept abstract so that the
lemma covers both a bare user:pass part and one carrying a scheme token. -/
theorem split_cred_tail (cred h po d a : GoStr)
    (hcne : cred ≠ []) (hcat : '@' ∉ cred) (hcsp : ∀ x ∈ cred, goIsSpace x = false)
    (hh : delimClean h) (hpo : delimClean po) (hd : delimClean d) (ha : delimClean a)
    (hpone : po ≠ []) (hane : a ≠ []) (heq : '=' ∈ a) :
    splitConnectionString (cred ++ '@' :: ((h ++ ':' :: po) ++ '/' :: (d ++ '?' :: a)))
      = ⟨if trimSpace (rightOf cred ':') ≠ [] then leftOf cred ':' else trimRightC cred ':',
         trimSpace (rightOf cred ':'),
         decide (trimSpace (rightOf cred ':') ≠ []),
         h, po, d, a⟩ := by
  obtain ⟨hhat, hhcol, hhsl, hhqm, hhsp⟩ := hh
  obtain ⟨hpat, hpcol, hpsl, hpqm, hpsp⟩ := hpo
  obtain ⟨hdat, hdcol, hdsl, hdqm, hdsp⟩ := hd
  obtain ⟨haat, hacol, hasl, haqm, hasp⟩ := ha
  have hTat : '@' ∉ (h ++ ':' :: po) ++ '/' :: (d ++ '?' :: a) := by
    simp [List.mem_append, List.mem_cons, hhat, hpat, hdat, haat,
      at_ne_colon, at_ne_slash, at_ne_qmark]
  have hTsp : ∀ c ∈ (h ++ ':' :: po) ++ '/' :: (d ++ '?' :: a), goIsSpace c = false :=
    forall_mem_append' _ _ _
      (forall_mem_append' _ _ _ hhsp (forall_mem_cons' _ _ _ colon_space_false hpsp))
      (forall_mem_cons' _ _ _ slash_space_false
        (forall_mem_append' _ _ _ hdsp
          (forall_mem_cons' _ _ _ qmark_space_false hasp)))
  have hXsl : '/' ∉ h ++ ':' :: po := by
    simp [List.mem_append, List.mem_cons, hhsl, hpsl, slash_ne_colon]
  have hYsl : '/' ∉ d ++ '?' :: a := by
    simp [List.mem_append, List.mem_cons, hdsl, hasl, slash_ne_qmark]
  have hXsp : ∀ c ∈ h ++ ':' :: po, goIsSpace c = false :=
    forall_mem_append' _ _ _ hhsp (forall_mem_cons' _ _ _ colon_space_false hpsp)
  have hYsp : ∀ c ∈ d ++ '?' :: a, goIsSpace c = false :=
    forall_mem_append' _ _ _ hdsp (forall_mem_cons' _ _ _ qmark_space_false hasp)
  have e1 : leftOf (cred ++ '@' :: ((h ++ ':' :: po) ++ '/' :: (d ++ '?' :: a))) '@' = cred := by
    rw [leftOf_sandwich cred _ '@' hcat hTat, trimSpace_eq_self cred hcsp]
  have e2 : rightOf (cred ++ '@' :: ((h ++ ':' :: po) ++ '/' :: (d ++ '?' :: a))) '@'
      = (h ++ ':' :: po) ++ '/' :: (d ++ '?' :: a) := by
    rw [rightOf_sandwich cred _ '@' hcat hTat, trimSpace_eq_self _ hTsp]
  have e3 : rightOf ((h ++ ':' :: po) ++ '/' :: (d ++ '?' :: a)) '/' = d ++ '?' :: a := by
    rw [rightOf_sandwich _ _ '/' hXsl hYsl, trimSpace_eq_self _ hYsp]
  have e3ne : d ++ '?' :: a ≠ [] := by simp
  have e4 : leftOf ((h ++ ':' :: po) ++ '/' :: (d ++ '?' :: a)) '/' = h ++ ':' :: po := by
    rw [leftOf_sandwich _ _ '/' hXsl hYsl, trimSpace_eq_self _ hXsp]
  have e5 : ¬ ('@' ∈ h ++ ':' :: po) := by
    simp [List.mem_append, List.mem_cons, hhat, hpat, at_ne_colon]
  have e6 : rightOf (h ++ ':' :: po) ':' = po := by
    rw [rightOf_sandwich h po ':' hhcol hpcol, trimSpace_eq_self po hpsp]
  have e7 : leftOf (h ++ ':' :: po) ':' = h := by
    rw [leftOf_sandwich h po ':' hhcol hpcol, trimSpace_eq_self h hhsp]
  have e8 : ('?' ∈ d ++ '?' :: a) ∧ ('=' ∈ d ++ '?' :: a) := by
    constructor
    · simp [List.mem_append, List.mem_cons]
    · simp [List.mem_append, List.mem_cons, heq]
  have e10 : rightOf (d ++ '?' :: a) '?' = a := by
    rw [rightOf_sandwich d a '?' hdqm haqm, trimSpace_eq_self a hasp]
  have e11 : leftOf (d ++ '?' :: a) '?' = d := by
    rw [leftOf_sandwich d a '?' hdqm haqm, trimSpace_eq_self d hdsp]
  simp only [splitConnectionString]
  rw [e1, if_pos hcne, e2, e3, if_pos e3ne, if_pos e3ne, e4, if_neg e5, e6,
    if_pos hpone, if_pos hpone, e7, if_pos e8, if_pos e8, e10, if_pos hane, e11]

/-- Computation of buildConnectionString on fields forming a well-formed
DSN with a password: the output is the scheme token followed by the
components in grammar positions. -/
theorem build_clean_cred (u p h po d a : GoStr)
    (hucol : ':' ∉ u) (hune : u ≠ []) (hhne : h ≠ []) (hpone : po ≠ []) (hane : a ≠ []) :
    buildConnectionString u p true h po d a
      = ((str "postgres://" ++ u) ++ ':' :: p) ++ '@' :: ((h ++ ':' :: po) ++ '/' :: (d ++ '?' :: a)) := by
  have hnp : (str "postgres://").isPrefixOf u = false := by
    cases hb : (str "postgres://").isPrefixOf u
    · rfl
    · exact absurd (mem_of_isPrefixOf _ u ':' hb (by decide)) hucol
  simp only [buildConnectionString]
  rw [if_pos hane, if_pos hpone, if_pos hhne, if_pos ⟨hune, trivial⟩, if_neg (by simp [hnp])]
  simp [str_colon, str_at, str_slash, str_qmark, List.append_assoc]

/-- Computation of buildConnectionString when the username field already
carries the scheme token and a colon, the password is empty and the
hasPassword flag is down: the scheme token is not emitted again. -/
theorem build_schemed_cred (u p h po d a : GoStr)
    (hhne : h ≠ []) (hpone : po ≠ []) (hane : a ≠ []) :
    buildConnectionString ((str "postgres://" ++ u) ++ ':' :: p) [] false h po d a
      = ((str "postgres://" ++ u) ++ ':' :: p) ++ '@' :: ((h ++ ':' :: po) ++ '/' :: (d ++ '?' :: a)) := by
  have hpre : (str "postgres://").isPrefixOf ((str "postgres://" ++ u) ++ ':' :: p) = true := by
    have hgrp : (str "postgres://" ++ u) ++ ':' :: p = str "postgres://" ++ (u ++ ':' :: p) := by
      simp [List.append_assoc]
    rw [hgrp]
    exact isPrefixOf_append_self _ _
  simp only [buildConnectionString]
  rw [if_pos hane, if_pos hpone, if_pos hhne, if_neg (by simp), if_pos (by simp),
    if_pos hpre]
  simp [str_colon, str_at, str_slash, str_qmark, List.append_assoc]

/-!
Claim theorems.
-/

/-- C3: for every well-formed input of the shape user:pass\x40host:port/db?args
(components non-empty, free of the delimiter characters and of whitespace,
args carrying a key=value pair), splitConnectionString recovers exactly the
six components with hasPassword set, and buildConnectionString re-encodes
them into the same grammar positions behind the scheme token. -/
theorem c3_parse_build_preserves_components (u p h po d a : GoStr)
    (hu : cleanComponent u) (hpw : cleanComponent p) (hh : cleanComponent h)
    (hpo : cleanComponent po) (hd : cleanComponent d) (ha : cleanComponent a)
    (heq : '=' ∈ a) :
    splitConnectionString ((u ++ ':' :: p) ++ '@' :: ((h ++ ':' :: po) ++ '/' :: (d ++ '?' :: a)))
      = ⟨u, p, true, h, po, d, a⟩
    ∧ buildPC (splitConnectionString
        ((u ++ ':' :: p) ++ '@' :: ((h ++ ':' :: po) ++ '/' :: (d ++ '?' :: a))))
      = str "postgres://" ++ ((u ++ ':' :: p) ++ '@' :: ((h ++ ':' :: po) ++ '/' :: (d ++ '?' :: a))) := by
  obtain ⟨hune, hudc⟩ := hu
  obtain ⟨hpne, hpdc⟩ := hpw
  have hcat : '@' ∉ u ++ ':' :: p := by
    simp [List.mem_append, List.mem_cons, hudc.1, hpdc.1, at_ne_colon]
  have hcsp : ∀ x ∈ u ++ ':' :: p, goIsSpace x = false :=
    forall_mem_append' _ _ _ hudc.2.2.2.2
      (forall_mem_cons' _ _ _ colon_space_false hpdc.2.2.2.2)
  have base := split_cred_tail (u ++ ':' :: p) h po d a (by simp) hcat hcsp
    hh.2 hpo.2 hd.2 ha.2 hpo.1 ha.1 heq
  have er : rightOf (u ++ ':' :: p) ':' = p := by
    rw [rightOf_sandwich u p ':' hudc.2.1 hpdc.2.1, trimSpace_eq_self p hpdc.2.2.2.2]
  have el : leftOf (u ++ ':' :: p) ':' = u := by
    rw [leftOf_sandwich u p ':' hudc.2.1 hpdc.2.1, trimSpace_eq_self u hudc.2.2.2.2]
  rw [er, trimSpace_eq_self p hpdc.2.2.2.2, if_pos hpne, el, decide_eq_true hpne] at base
  refine ⟨base, ?_⟩
  rw [base]
  show buildConnectionString u p true h po d a = _
  rw [build_clean_cred u p h po d a hudc.2.1 hune hh.1 hpo.1 ha.1]
  simp [List.append_assoc]

/-- Witness for C3 at user:pass\x40host:5432/db?kv=1. -/
theorem c3_parse_build_preserves_components_witness :
    (cleanComponent (str "user") ∧ cleanComponent (str "pass") ∧ cleanComponent (str "host")
      ∧ cleanComponent (str "5432") ∧ cleanComponent (str "db") ∧ cleanComponent (str "kv=1")
      ∧ '=' ∈ str "kv=1")
    ∧ (splitConnectionString ((str "user" ++ ':' :: str "pass") ++ '@' ::
          ((str "host" ++ ':' :: str "5432") ++ '/' :: (str "db" ++ '?' :: str "kv=1")))
        = ⟨str "user", str "pass", true, str "host", str "5432", str "db", str "kv=1"⟩
      ∧ buildPC (splitConnectionString ((str "user" ++ ':' :: str "pass") ++ '@' ::
          ((str "host" ++ ':' :: str "5432") ++ '/' :: (str "db" ++ '?' :: str "kv=1"))))
        = str "postgres://" ++ ((str "user" ++ ':' :: str "pass") ++ '@' ::
          ((str "host" ++ ':' :: str "5432") ++ '/' :: (str "db" ++ '?' :: str "kv=1")))) :=
  ⟨⟨by decide, by decide, by decide, by decide, by decide, by decide, by decide⟩,
   c3_parse_build_preserves_components (str "user") (str "pass") (str "host") (str "5432")
     (str "db") (str "kv=1") (by decide) (by decide) (by decide) (by decide) (by decide)
     (by decide) (by decide)⟩

/-- C1 counterexample: for the ParsedConnection with all fields empty, the
string produced by encode parses, re-encodes and re-parses to a value that
differs from the first parse, so the claimed stability fails on encode's
image. -/
theorem c1_counterexample :
    splitConnectionString (buildPC (splitConnectionString
        (buildPC ⟨[], [], false, [], [], [], []⟩)))
      ≠ splitConnectionString (buildPC ⟨[], [], false, [], [], [], []⟩) := by
  decide

/-- C1 amended: on ParsedConnection values whose fields form a well-formed
DSN (non-empty, delimiter-free, whitespace-free components, args carrying a
key=value pair, hasPassword set), encode-then-parse stabilizes: parsing the
encoded string, re-encoding and re-parsing gives exactly the first parse. -/
theorem c1_roundtrip_amended (u p h po d a : GoStr)
    (hu : cleanComponent u) (hpw : cleanComponent p) (hh : cleanComponent h)
    (hpo : cleanComponent po) (hd : cleanComponent d) (ha : cleanComponent a)
    (heq : '=' ∈ a) :
    splitConnectionString (buildPC (splitConnectionString
        (buildPC ⟨u, p, true, h, po, d, a⟩)))
      = splitConnectionString (buildPC ⟨u, p, true, h, po, d, a⟩) := by
  obtain ⟨hune, hudc⟩ := hu
  obtain ⟨hpne, hpdc⟩ := hpw
  have hb0 : buildPC ⟨u, p, true, h, po, d, a⟩
      = ((str "postgres://" ++ u) ++ ':' :: p) ++ '@' ::
          ((h ++ ':' :: po) ++ '/' :: (d ++ '?' :: a)) := by
    show buildConnectionString u p true h po d a = _
    exact build_clean_cred u p h po d a hudc.2.1 hune hh.1 hpo.1 ha.1
  have hcat : '@' ∉ (str "postgres://" ++ u) ++ ':' :: p := by
    simp [List.mem_append, List.mem_cons, hudc.1, hpdc.1, at_ne_colon,
      (by decide : '@' ∉ str "postgres://")]
  have hcsp : ∀ x ∈ (str "postgres://" ++ u) ++ ':' :: p, goIsSpace x = false :=
    forall_mem_append' _ _ _
      (forall_mem_append' _ _ _ (by decide) hudc.2.2.2.2)
      (forall_mem_cons' _ _ _ colon_space_false hpdc.2.2.2.2)
  have base := split_cred_tail ((str "postgres://" ++ u) ++ ':' :: p) h po d a
    (by simp) hcat hcsp hh.2 hpo.2 hd.2 ha.2 hpo.1 ha.1 heq
  have hcnt : ((str "postgres://" ++ u) ++ ':' :: p).count ':' = 2 := by
    have h1 : (str "postgres://").count ':' = 1 := by decide
    simp [List.count_append, List.count_cons_self, h1,
      List.count_eq_zero.mpr hudc.2.1, List.count_eq_zero.mpr hpdc.2.1]
  have hro : rightOf ((str "postgres://" ++ u) ++ ':' :: p) ':' = [] :=
    rightOf_of_count_ne_one _ ':' (by rw [hcnt]; decide)
  have htr : trimRightC ((str "postgres://" ++ u) ++ ':' :: p) ':'
      = (str "postgres://" ++ u) ++ ':' :: p := by
    have hgrp : (str "postgres://" ++ u) ++ ':' :: p
        = ((str "postgres://" ++ u) ++ [':']) ++ p := by
      simp [List.append_assoc]
    rw [hgrp]
    exact trimRightC_append _ p ':' hpdc.2.1 hpne
  rw [hro, trimSpace_nil, if_neg (by simp), htr] at base
  have hdec2 : decide (([] : GoStr) ≠ []) = false := by decide
  rw [hdec2] at base
  have hb1 : buildPC ⟨(str "postgres://" ++ u) ++ ':' :: p, [], false, h, po, d, a⟩
      = ((str "postgres://" ++ u) ++ ':' :: p) ++ '@' ::
          ((h ++ ':' :: po) ++ '/' :: (d ++ '?' :: a)) := by
    show buildConnectionString ((str "postgres://" ++ u) ++ ':' :: p) [] false h po d a = _
    exact build_schemed_cred u p h po d a hh.1 hpo.1 ha.1
  rw [hb0, base, hb1, base]

/-- Witness for C1 amended at user:pass\x40host:5432/db?kv=1. -/
theorem c1_roundtrip_amended_witness :
    (cleanComponent (str "user") ∧ cleanComponent (str "pass") ∧ cleanComponent (str "host")
      ∧ cleanComponent (str "5432") ∧ cleanComponent (str "db") ∧ cleanComponent (str "kv=1")
      ∧ '=' ∈ str "kv=1")
    ∧ splitConnectionString (buildPC (splitConnectionString
        (buildPC ⟨str "user", str "pass", true, str "host", str "5432", str "db", str "kv=1"⟩)))
      = splitConnectionString
          (buildPC ⟨str "user", str "pass", true, str "host", str "5432", str "db", str "kv=1"⟩) :=
  ⟨⟨by decide, by decide, by decide, by decide, by decide, by decide, by decide⟩,
   c1_roundtrip_amended (str "user") (str "pass") (str "host") (str "5432") (str "db")
     (str "kv=1") (by decide) (by decide) (by decide) (by decide) (by decide) (by decide)
     (by decide)⟩

set_option maxHeartbeats 1000000

/-- Decomposition of buildConnectionString into the output grammar
segments: scheme token, credentials block, host, port, database and
arguments, each governed only by its own emptiness test. -/
theorem build_decomp (u pw : GoStr) (hp : Bool) (h po d a : GoStr) :
    buildConnectionString u pw hp h po d a
      = schemeSegment u ++ credentialsBlock u pw hp
          ++ (if h ≠ [] then h else []) ++ (if po ≠ [] then ':' :: po else [])
          ++ '/' :: (d ++ (if a ≠ [] then '?' :: a else str "?sslmode=disable")) := by
  by_cases hs : (str "postgres://").isPrefixOf u = true <;>
    by_cases hu : u = [] <;>
    by_cases hb : hp = true <;>
    by_cases hh0 : h = [] <;>
    by_cases hp0 : po = [] <;>
    by_cases ha0 : a = [] <;>
    simp [buildConnectionString, schemeSegment, credentialsBlock, hs, hu, hb, hh0, hp0, ha0,
      str_colon, str_at, str_slash, str_qmark, List.append_assoc]

/-- C2 counterexample: an explicitly supplied empty password (trailing
colon in the credentials part) does not set the hasPassword flag. -/
theorem c2_counterexample :
    (splitConnectionString (str "user:@host:1234/db")).hasPassword ≠ true := by decide

/-- C2 amended: parsing user:\x40host:1234/db yields username user, empty
password, hasPassword false (the flag tracks only non-emptiness of the
parsed password), host host and port 1234. -/
theorem c2_empty_password_amended :
    splitConnectionString (str "user:@host:1234/db")
      = ⟨str "user", [], false, str "host", str "1234", str "db", []⟩ := by decide

/-- C4 counterexample: on the bare input db the parser returns host db,
not an empty host. -/
theorem c4_counterexample : (splitConnectionString (str "db")).host ≠ [] := by decide

/-- C4 amended: a bare string with neither at sign nor slash becomes the
host (with the default port filled in), and the database name falls back
to the fixed default. -/
theorem c4_bare_string_amended :
    splitConnectionString (str "db")
      = ⟨[], [], false, str "db", itoa defaultPort, defaultDatabaseName, []⟩ := by decide

/-- C5 counterexample: with an empty host and port 5432 the encoder still
emits the :5432 fragment. -/
theorem c5_counterexample :
    str ":5432" <:+: buildConnectionString [] [] false [] (str "5432") (str "db") [] := by
  decide

/-- C5 amended: with an empty host the encoded string has no host segment,
but the :port fragment is still emitted whenever port is non-empty; the
two segments are governed by independent emptiness tests. -/
theorem c5_host_port_amended (u pw : GoStr) (hp : Bool) (po d a : GoStr) :
    buildConnectionString u pw hp [] po d a
      = schemeSegment u ++ credentialsBlock u pw hp
          ++ (if po ≠ [] then ':' :: po else [])
          ++ '/' :: (d ++ (if a ≠ [] then '?' :: a else str "?sslmode=disable")) := by
  rw [build_decomp]
  simp

/-- C6 counterexample: with username and password both empty but the
hasPassword flag set, the encoder emits the credentials block :\x40. -/
theorem c6_counterexample :
    buildConnectionString [] [] true [] [] (str "db") []
        = str "postgres://:@/db?sslmode=disable"
      ∧ '@' ∈ buildConnectionString [] [] true [] [] (str "db") [] := by decide

/-- C6 amended: the encoder emits the credentials block right after the
scheme token; the block is non-empty exactly when the username is
non-empty or the hasPassword flag is set (not when the password itself is
non-empty), and any non-empty block ends in the at sign, taking one of
the four forms user:pass\x40, user\x40, :pass\x40 or nothing. -/
theorem c6_credentials_amended (u pw : GoStr) (hp : Bool) (h po d a : GoStr) :
    (∃ rest, buildConnectionString u pw hp h po d a
        = schemeSegment u ++ credentialsBlock u pw hp ++ rest)
    ∧ (credentialsBlock u pw hp ≠ [] ↔ (u ≠ [] ∨ hp = true))
    ∧ (credentialsBlock u pw hp = [] ∨ ∃ b, credentialsBlock u pw hp = b ++ ['@']) := by
  refine ⟨⟨(if h ≠ [] then h else []) ++ ((if po ≠ [] then ':' :: po else [])
      ++ '/' :: (d ++ (if a ≠ [] then '?' :: a else str "?sslmode=disable"))),
    by rw [build_decomp u pw hp h po d a]; simp [List.append_assoc]⟩, ?_, ?_⟩
  · unfold credentialsBlock
    by_cases hu : u = []
    · subst hu
      by_cases hhp : hp = true
      · rw [if_neg (by simp), if_neg (by simp), if_pos hhp]
        simp [hhp]
      · rw [if_neg (by simp), if_neg (by simp), if_neg hhp]
        simp [hhp]
    · by_cases hhp : hp = true
      · rw [if_pos ⟨hu, hhp⟩]
        simp [hu, hhp]
      · rw [if_neg (by simp [hhp]), if_pos hu]
        simp [hu, hhp]
  · unfold credentialsBlock
    by_cases hu : u = []
    · subst hu
      by_cases hhp : hp = true
      · rw [if_neg (by simp), if_neg (by simp), if_pos hhp]
        exact Or.inr ⟨':' :: pw, rfl⟩
      · rw [if_neg (by simp), if_neg (by simp), if_neg hhp]
        exact Or.inl rfl
    · by_cases hhp : hp = true
      · rw [if_pos ⟨hu, hhp⟩]
        exact Or.inr ⟨u ++ ':' :: pw, by simp⟩
      · rw [if_neg (by simp [hhp]), if_pos hu]
        exact Or.inr ⟨u, rfl⟩

/-- C7 counterexample: on input host/?a=b the parser extracts args a=b and
leaves an empty database name. -/
theorem c7_counterexample : (splitConnectionString (str "host/?a=b")).dbname = [] := by
  decide

/-- Auxiliary step for C7: the final database-name computation of the
parser never empties a non-empty database segment unless it extracted a
non-empty argument tail. -/
theorem dbname_args_aux (D : GoStr) (hD : D ≠ [])
    (hargs : (if '?' ∈ D ∧ '=' ∈ D then rightOf D '?' else []) = []) :
    (if '?' ∈ D ∧ '=' ∈ D then
        if (if '?' ∈ D ∧ '=' ∈ D then rightOf D '?' else []) ≠ [] then leftOf D '?' else D
      else D) ≠ [] := by
  by_cases hc : '?' ∈ D ∧ '=' ∈ D
  · rw [if_pos hc] at hargs
    rw [if_pos hc, if_pos hc, hargs, if_neg (by simp)]
    exact hD
  · rw [if_neg hc]
    exact hD

/-- The parsed database segment is non-empty: either taken from the input
or defaulted. -/
theorem ite_default_ne (x : GoStr) : (if x ≠ [] then x else defaultDatabaseName) ≠ [] := by
  split
  · assumption
  · decide

/-- C7 amended: whenever the parse extracts no argument tail, the database
name is non-empty (taken from the input or defaulted); and the second
result of rebuildConnectionString is always that database name. -/
theorem c7_dbname_amended (s : GoStr)
    (hargs : (splitConnectionString s).args = []) :
    (splitConnectionString s).dbname ≠ []
      ∧ (rebuildConnectionString s).2 = (splitConnectionString s).dbname := by
  refine ⟨?_, rfl⟩
  simp only [splitConnectionString] at hargs ⊢
  exact dbname_args_aux _ (ite_default_ne _) hargs

/-- Witness for C7 amended at the input db. -/
theorem c7_dbname_amended_witness :
    (splitConnectionString (str "db")).args = []
      ∧ ((splitConnectionString (str "db")).dbname ≠ []
        ∧ (rebuildConnectionString (str "db")).2 = (splitConnectionString (str "db")).dbname) :=
  ⟨by decide, c7_dbname_amended (str "db") (by decide)⟩

/-- C9: when the args field is empty the encoded string always ends with
the fixed default SSL-disable argument. -/
theorem c9_default_ssl_arg (u pw : GoStr) (hp : Bool) (h po d : GoStr) :
    str "?sslmode=disable" <:+ buildConnectionString u pw hp h po d [] := by
  rw [build_decomp]
  refine ⟨schemeSegment u ++ credentialsBlock u pw hp
      ++ (if h ≠ [] then h else []) ++ (if po ≠ [] then ':' :: po else []) ++ '/' :: d, ?_⟩
  simp [List.append_assoc]

/-- C10: on every input the hasPassword flag returned by the parser is set
exactly when the returned password is non-empty. -/
theorem c10_hasPassword_iff (s : GoStr) :
    (splitConnectionString s).hasPassword = true
      ↔ (splitConnectionString s).password ≠ [] := by
  simp [splitConnectionString]

/-! Lemmas for the checked parser. -/

theorem opt_pure_eq_some {α : Type} (a : α) : (pure a : Option α) = some a := rfl

theorem opt_bind_some {α β : Type} (a : α) (f : α → Option β) :
    (some a >>= f) = f a := rfl

theorem ite_some_some {α : Type} (c : Prop) [Decidable c] (A B : α) :
    (if c then some A else some B) = some (if c then A else B) := by
  split <;> rfl

theorem twoFieldsChecked_eq (s : GoStr) (c : Char) :
    twoFieldsChecked s c = some (twoFields s c) := by
  unfold twoFieldsChecked twoFields
  split
  · rfl
  · rename_i hcnt
    have hc : s.count c = 1 := not_not.mp hcnt
    have hl : (goSplit s c).length = 2 := by rw [goSplit_length, hc]
    cases hg : goSplit s c with
    | nil =>
      rw [hg] at hl
      simp at hl
    | cons x l =>
      cases l with
      | nil =>
        rw [hg] at hl
        simp at hl
      | cons y l2 =>
        cases l2 with
        | nil => rfl
        | cons z l3 =>
          rw [hg] at hl
          simp only [List.length_cons, List.length_nil] at hl
          omega

theorem leftOfChecked_eq (s : GoStr) (c : Char) :
    leftOfChecked s c = some (leftOf s c) := by
  unfold leftOfChecked leftOf
  rw [twoFieldsChecked_eq]
  rfl

theorem rightOfChecked_eq (s : GoStr) (c : Char) :
    rightOfChecked s c = some (rightOf s c) := by
  unfold rightOfChecked rightOf
  rw [twoFieldsChecked_eq]
  rfl

/-- C8: the checked parser, which performs every field access of the
source with an explicit bounds check, never fails, and it agrees with
splitConnectionString on every input: parsing is total and fully
populated. -/
theorem c8_split_total (s : GoStr) :
    splitConnectionStringChecked s = some (splitConnectionString s) := by
  unfold splitConnectionStringChecked splitConnectionString
  simp only [leftOfChecked_eq, rightOfChecked_eq, opt_pure_eq_some, ite_some_some,
    opt_bind_some]

end Simplehstore
